import Mathlib

/-
Verification development for the rif-storage-ipfs-pinner event-driven
reconciliation engine.  The definitions below are a shallow embedding of the
TypeScript sources: the Agreement store is a keyed list of rows, the
per-event handlers of src/processor/blockchain-events/agreement.ts become
pure state-passing functions, the generic handler plumbing of src/utils.ts
becomes functions over an Except type, and the precache handoff protocol of
BlockchainEventsProcessor.precache becomes a step relation on a queueing
state.  External collaborators (the solidity sha3 hash, the byte-array
decoder of web3-utils, block-number-to-timestamp lookup, the content-store
unpin call) are passed in as function parameters, mirroring their role as
injected dependencies in the source.
-/

namespace Pinner

/-- One row of the Agreement store, mirroring models/agreement.model.ts as it
is used by the handlers: availableFunds is a signed decimal (amounts on the
events are integral, so Int), lastPayout a block timestamp. -/
structure Agreement where
  agreementReference : String
  dataReference : String
  consumer : String
  offerId : String
  size : Int
  billingPeriod : Int
  billingPrice : Int
  availableFunds : Int
  lastPayout : Nat
  expiredAtBlockNumber : Option Nat
  isActive : Bool
deriving Repr, DecidableEq

/-- The Agreement store: the rows of the SQL table, keyed by the primary key
agreementReference. -/
abbrev Store := List Agreement

/-- Agreement.findByPk: first row whose primary key matches. -/
def findByPk : Store → String → Option Agreement
  | [], _ => none
  | a :: rest, id => if a.agreementReference = id then some a else findByPk rest id

/-- agreement.save(): write the row back under its primary key (every row
carrying the same key is overwritten, which under the primary-key invariant
is the single existing row). -/
def saveAgreement : Store → Agreement → Store
  | [], _ => []
  | b :: rest, a =>
      if b.agreementReference = a.agreementReference
      then a :: saveAgreement rest a
      else b :: saveAgreement rest a

/-- Number of rows carrying a given primary key. -/
def countById : Store → String → Nat
  | [], _ => 0
  | a :: rest, id => (if a.agreementReference = id then 1 else 0) + countById rest id

theorem findByPk_eq_ref (st : Store) (id : String) (a : Agreement)
    (h : findByPk st id = some a) : a.agreementReference = id := by
  induction st with
  | nil => simp [findByPk] at h
  | cons b rest ih =>
      by_cases hb : b.agreementReference = id
      · simp [findByPk, hb] at h
        rw [← h]
        exact hb
      · simp [findByPk, hb] at h
        exact ih h

theorem findByPk_save (st : Store) (id : String) (a b : Agreement)
    (hfind : findByPk st id = some a) (hb : b.agreementReference = id) :
    findByPk (saveAgreement st b) id = some b := by
  induction st with
  | nil => simp [findByPk] at hfind
  | cons c rest ih =>
      by_cases hc : c.agreementReference = id
      · have : c.agreementReference = b.agreementReference := by rw [hc, hb]
        simp [saveAgreement, this, findByPk, hb]
      · have : ¬ c.agreementReference = b.agreementReference := by rw [hb]; exact hc
        simp [findByPk, hc] at hfind
        simp [saveAgreement, this, findByPk, hc]
        exact ih hfind

theorem countById_save (st : Store) (a : Agreement) (id : String) :
    countById (saveAgreement st a) id = countById st id := by
  induction st with
  | nil => simp [saveAgreement]
  | cons b rest ih =>
      simp only [saveAgreement]
      by_cases hb : b.agreementReference = a.agreementReference
      · simp only [if_pos hb, countById, ih, hb]
      · simp only [if_neg hb, countById, ih]

theorem countById_append_one (st : Store) (a : Agreement) (id : String) :
    countById (st ++ [a]) id
      = countById st id + (if a.agreementReference = id then 1 else 0) := by
  induction st with
  | nil => simp [countById]
  | cons b rest ih => simp [countById, ih]; omega

theorem findByPk_none_count (st : Store) (id : String)
    (h : findByPk st id = none) : countById st id = 0 := by
  induction st with
  | nil => simp [countById]
  | cons b rest ih =>
      by_cases hb : b.agreementReference = id
      · simp [findByPk, hb] at h
      · simp [findByPk, hb] at h
        simp [countById, hb, ih h]

theorem findByPk_some_count (st : Store) (id : String) (a : Agreement)
    (h : findByPk st id = some a) : 1 ≤ countById st id := by
  induction st with
  | nil => simp [findByPk] at h
  | cons b rest ih =>
      by_cases hb : b.agreementReference = id
      · simp [countById, hb]
      · simp [findByPk, hb] at h
        simp [countById, hb]
        exact ih h

theorem findByPk_append_none (st l : Store) (id : String)
    (h : findByPk st id = none) : findByPk (st ++ l) id = findByPk l id := by
  induction st with
  | nil => simp
  | cons b rest ih =>
      by_cases hb : b.agreementReference = id
      · simp [findByPk, hb] at h
      · simp [findByPk, hb] at h ⊢
        exact ih h

/-- The column values supplied to Agreement.upsert by the NewAgreement
handler: every Agreement column except isActive, which the handler does not
set (the model default keeps a fresh row active, and an update leaves the
stored flag untouched). -/
structure AgreementData where
  agreementReference : String
  dataReference : String
  consumer : String
  offerId : String
  size : Int
  billingPeriod : Int
  billingPrice : Int
  availableFunds : Int
  lastPayout : Nat
  expiredAtBlockNumber : Option Nat
deriving Repr, DecidableEq

def AgreementData.applyTo (d : AgreementData) (isActive : Bool) : Agreement :=
  { agreementReference := d.agreementReference
    dataReference := d.dataReference
    consumer := d.consumer
    offerId := d.offerId
    size := d.size
    billingPeriod := d.billingPeriod
    billingPrice := d.billingPrice
    availableFunds := d.availableFunds
    lastPayout := d.lastPayout
    expiredAtBlockNumber := d.expiredAtBlockNumber
    isActive := isActive }

/-- Agreement.upsert: update the row carrying the primary key if it exists
(leaving the isActive column alone, as it is not among the supplied values),
insert a fresh row otherwise. -/
def upsert (st : Store) (d : AgreementData) : Store :=
  match findByPk st d.agreementReference with
  | some old => saveAgreement st (d.applyTo old.isActive)
  | none => st ++ [d.applyTo true]

theorem upsert_count (st : Store) (d : AgreementData)
    (h : countById st d.agreementReference ≤ 1) :
    countById (upsert st d) d.agreementReference = 1 := by
  unfold upsert
  cases hf : findByPk st d.agreementReference with
  | none =>
      have h0 := findByPk_none_count st d.agreementReference hf
      rw [countById_append_one, h0]
      simp [AgreementData.applyTo]
  | some old =>
      have h1 := findByPk_some_count st d.agreementReference old hf
      rw [countById_save]
      omega

theorem upsert_find (st : Store) (d : AgreementData) :
    ∃ a, findByPk (upsert st d) d.agreementReference = some a ∧
      a.agreementReference = d.agreementReference := by
  unfold upsert
  cases hf : findByPk st d.agreementReference with
  | none =>
      refine ⟨d.applyTo true, ?_, rfl⟩
      rw [findByPk_append_none st _ _ hf]
      simp [findByPk, AgreementData.applyTo]
  | some old =>
      exact ⟨d.applyTo old.isActive,
        findByPk_save st d.agreementReference old (d.applyTo old.isActive) hf rfl, rfl⟩

theorem upsert_count_le (st : Store) (d : AgreementData)
    (h : countById st d.agreementReference ≤ 1) :
    countById (upsert st d) d.agreementReference ≤ 1 :=
  le_of_eq (upsert_count st d h)

/-- External collaborators injected into the blockchain-event handlers:
sha3 models soliditySha3 of web3-utils applied to its argument list,
decodeBytes models decodeByteArray of src/utils.ts (whose hexToAscii step is
itself a web3-utils call), getBlockDate models getBlockDate of
src/blockchain/utils.ts resolving a block number to its timestamp. -/
structure Ctx where
  sha3 : List String → String
  decodeBytes : List String → String
  getBlockDate : Nat → Nat

/-- Broadcast codes used by the agreement handlers. -/
inductive Msg where
  | agreementNew (agreementReference : String)
  | agreementStopped (agreementReference : String)
deriving Repr, DecidableEq

/-- The NewAgreement event payload (returnValues plus blockNumber). -/
structure NewAgreementEvent where
  blockNumber : Nat
  provider : String
  agreementCreator : String
  dataReference : List String
  size : Int
  billingPeriod : Int
  billingPrice : Int
  token : String
  availableFunds : Int
deriving Repr, DecidableEq

/-- The column values the NewAgreement handler builds before upserting:
the id is soliditySha3(consumer, ...dataReference chunks, token). -/
def newAgreementData (ctx : Ctx) (ev : NewAgreementEvent) : AgreementData :=
  { agreementReference := ctx.sha3 (ev.agreementCreator :: (ev.dataReference ++ [ev.token]))
    dataReference := ctx.decodeBytes ev.dataReference
    consumer := ev.agreementCreator
    offerId := ev.provider
    size := ev.size
    billingPeriod := ev.billingPeriod
    billingPrice := ev.billingPrice
    availableFunds := ev.availableFunds
    lastPayout := ctx.getBlockDate ev.blockNumber
    expiredAtBlockNumber := none }

structure NewAgreementOut where
  store : Store
  pinRequests : List (String × Int × String)
  broadcasts : List Msg
deriving Repr

/-- handlers.NewAgreement of src/processor/blockchain-events/agreement.ts:
derive the deterministic id, upsert the Agreement, and when a provider
manager is configured request a pin of the decoded data reference sized to
the paid size and broadcast an agreement-created notification. -/
def handleNewAgreement (ctx : Ctx) (managerPresent : Bool)
    (ev : NewAgreementEvent) (st : Store) : NewAgreementOut :=
  let data := newAgreementData ctx ev
  let st1 := upsert st data
  if managerPresent then
    { store := st1
      pinRequests := [(data.dataReference, data.size, data.agreementReference)]
      broadcasts := [Msg.agreementNew data.agreementReference] }
  else
    { store := st1, pinRequests := [], broadcasts := [] }

theorem handleNewAgreement_store (ctx : Ctx) (mgr : Bool)
    (ev : NewAgreementEvent) (st : Store) :
    (handleNewAgreement ctx mgr ev st).store = upsert st (newAgreementData ctx ev) := by
  unfold handleNewAgreement
  cases mgr <;> simp

/-- C1: Idempotent creation.  Processing the same NewAgreement event twice
leaves the Agreement store with exactly one record carrying the event
deterministic id soliditySha3(consumer, ...data-reference chunks, token);
the handler upserts, so the replay is safe.  The hypothesis is the
primary-key invariant of the underlying SQL table (at most one row per id
before processing). -/
theorem newAgreement_idempotent_creation (ctx : Ctx) (mgr : Bool)
    (ev : NewAgreementEvent) (st : Store)
    (hkey : countById st (ctx.sha3 (ev.agreementCreator :: (ev.dataReference ++ [ev.token]))) ≤ 1) :
    countById (handleNewAgreement ctx mgr ev (handleNewAgreement ctx mgr ev st).store).store
        (ctx.sha3 (ev.agreementCreator :: (ev.dataReference ++ [ev.token]))) = 1 ∧
    ∃ a, findByPk (handleNewAgreement ctx mgr ev (handleNewAgreement ctx mgr ev st).store).store
        (ctx.sha3 (ev.agreementCreator :: (ev.dataReference ++ [ev.token]))) = some a ∧
      a.agreementReference
        = ctx.sha3 (ev.agreementCreator :: (ev.dataReference ++ [ev.token])) := by
  have href : (newAgreementData ctx ev).agreementReference
      = ctx.sha3 (ev.agreementCreator :: (ev.dataReference ++ [ev.token])) := rfl
  rw [handleNewAgreement_store, handleNewAgreement_store, ← href]
  have h1 : countById (upsert st (newAgreementData ctx ev))
      (newAgreementData ctx ev).agreementReference ≤ 1 :=
    upsert_count_le st (newAgreementData ctx ev) (href ▸ hkey)
  refine ⟨upsert_count _ _ h1, ?_⟩
  obtain ⟨a, hfind, haref⟩ := upsert_find (upsert st (newAgreementData ctx ev)) (newAgreementData ctx ev)
  exact ⟨a, hfind, haref⟩

/-- A concrete context standing in for the injected collaborators in the
witnesses: a separator-based stand-in for the hash, concatenation for the
byte decoding, the identity for block timestamps. -/
def wCtx : Ctx :=
  { sha3 := fun parts => String.intercalate "|" parts
    decodeBytes := fun parts => String.intercalate "" parts
    getBlockDate := fun n => n }

def wNewEvent : NewAgreementEvent :=
  { blockNumber := 7
    provider := "offer1"
    agreementCreator := "consumer1"
    dataReference := ["aa", "bb"]
    size := 3
    billingPeriod := 10
    billingPrice := 2
    token := "tok"
    availableFunds := 100 }

theorem newAgreement_idempotent_creation_witness :
    countById (handleNewAgreement wCtx true wNewEvent
        (handleNewAgreement wCtx true wNewEvent []).store).store
        (wCtx.sha3 (wNewEvent.agreementCreator :: (wNewEvent.dataReference ++ [wNewEvent.token]))) = 1 ∧
    ∃ a, findByPk (handleNewAgreement wCtx true wNewEvent
        (handleNewAgreement wCtx true wNewEvent []).store).store
        (wCtx.sha3 (wNewEvent.agreementCreator :: (wNewEvent.dataReference ++ [wNewEvent.token]))) = some a ∧
      a.agreementReference
        = wCtx.sha3 (wNewEvent.agreementCreator :: (wNewEvent.dataReference ++ [wNewEvent.token])) :=
  newAgreement_idempotent_creation wCtx true wNewEvent [] (Nat.zero_le 1)

/-- Errors raised by the agreement handlers and the generic handler
plumbing: the EventError for a missing Agreement, a re-raised unpin failure,
and the generic rejection for an event name with no registered handler. -/
inductive HandlerError where
  | eventNotFound (id : String) (eventName : String)
  | unpinFailed (message : String)
  | unknownEvent (eventName : String)
deriving Repr, DecidableEq

/-- The three fund-mutation events of the StorageManager contract, with the
fields the handlers read (amounts are integral on-chain values). -/
inductive FundEvent where
  | deposited (agreementReference : String) (amount : Int)
  | withdrawn (agreementReference : String) (amount : Int)
  | payout (blockNumber : Nat) (agreementReference : String) (amount : Int)
deriving Repr, DecidableEq

def FundEvent.reference : FundEvent → String
  | .deposited id _ => id
  | .withdrawn id _ => id
  | .payout _ id _ => id

/-- handlers.AgreementFundsDeposited, AgreementFundsWithdrawn and
AgreementFundsPayout of src/processor/blockchain-events/agreement.ts:
locate the Agreement (not-found otherwise), add or subtract the amount from
availableFunds, for a payout additionally set lastPayout to the payout
timestamp of the payout block, and persist.  The not-found tag of the payout handler is
the Withdrawn name, as in the source. -/
def handleFundEvent (ctx : Ctx) (e : FundEvent) (st : Store) : Except HandlerError Store :=
  match e with
  | .deposited id amount =>
      match findByPk st id with
      | none => .error (.eventNotFound id "AgreementFundsDeposited")
      | some a => .ok (saveAgreement st { a with availableFunds := a.availableFunds + amount })
  | .withdrawn id amount =>
      match findByPk st id with
      | none => .error (.eventNotFound id "AgreementFundsWithdrawn")
      | some a => .ok (saveAgreement st { a with availableFunds := a.availableFunds - amount })
  | .payout bn id amount =>
      match findByPk st id with
      | none => .error (.eventNotFound id "AgreementFundsWithdrawn")
      | some a => .ok (saveAgreement st
          { a with lastPayout := ctx.getBlockDate bn
                   availableFunds := a.availableFunds - amount })

/-- Sequential, fail-fast processing of a chain-ordered list of fund
events, each dispatch completed before the next. -/
def processFundEvents (ctx : Ctx) : List FundEvent → Store → Except HandlerError Store
  | [], st => .ok st
  | e :: rest, st =>
      match handleFundEvent ctx e st with
      | .error err => .error err
      | .ok st1 => processFundEvents ctx rest st1

/-- Signed contribution of one fund event to availableFunds. -/
def FundEvent.delta : FundEvent → Int
  | .deposited _ amount => amount
  | .withdrawn _ amount => -amount
  | .payout _ _ amount => -amount

def netDelta : List FundEvent → Int
  | [] => 0
  | e :: rest => e.delta + netDelta rest

/-- lastPayout after a sequence of fund events: each payout overwrites it
with the timestamp of its block, deposits and withdrawals leave it alone. -/
def finalLastPayout (ctx : Ctx) : List FundEvent → Nat → Nat
  | [], lp => lp
  | .payout bn _ _ :: rest, _ => finalLastPayout ctx rest (ctx.getBlockDate bn)
  | .deposited _ _ :: rest, lp => finalLastPayout ctx rest lp
  | .withdrawn _ _ :: rest, lp => finalLastPayout ctx rest lp

/-- C2: Fund-mutation order preservation.  For an Agreement present in the
store and any chain-ordered sequence of deposit, withdraw and payout events
referencing it, sequential processing succeeds and leaves availableFunds at
the initial value plus each deposit and minus each withdrawal and payout in
that order, with lastPayout tracking the timestamp of the latest payout block. -/
theorem fundEvents_order_preservation (ctx : Ctx) (es : List FundEvent) :
    ∀ (st : Store) (id : String) (a : Agreement),
    findByPk st id = some a →
    (∀ e ∈ es, FundEvent.reference e = id) →
    ∃ st1 a1, processFundEvents ctx es st = .ok st1 ∧
      findByPk st1 id = some a1 ∧
      a1.availableFunds = a.availableFunds + netDelta es ∧
      a1.lastPayout = finalLastPayout ctx es a.lastPayout := by
  induction es with
  | nil =>
      intro st id a hfind _
      exact ⟨st, a, rfl, hfind, by simp [netDelta], rfl⟩
  | cons e rest ih =>
      intro st id a hfind hall
      have he : FundEvent.reference e = id := hall e (List.mem_cons_self e rest)
      have hrest : ∀ x ∈ rest, FundEvent.reference x = id :=
        fun x hx => hall x (List.mem_cons_of_mem e hx)
      have haref : a.agreementReference = id := findByPk_eq_ref st id a hfind
      cases e with
      | deposited eid amount =>
          have heid : eid = id := he
          subst heid
          have hupd : findByPk (saveAgreement st { a with availableFunds := a.availableFunds + amount }) eid
              = some { a with availableFunds := a.availableFunds + amount } :=
            findByPk_save st eid a _ hfind haref
          obtain ⟨st1, a1, hproc, hfind1, hfunds, hlp⟩ :=
            ih (saveAgreement st { a with availableFunds := a.availableFunds + amount }) eid
              { a with availableFunds := a.availableFunds + amount } hupd hrest
          refine ⟨st1, a1, ?_, hfind1, ?_, ?_⟩
          · simp [processFundEvents, handleFundEvent, hfind, hproc]
          · simp at hfunds
            simp [netDelta, FundEvent.delta, hfunds]
            ring
          · simpa [finalLastPayout] using hlp
      | withdrawn eid amount =>
          have heid : eid = id := he
          subst heid
          have hupd : findByPk (saveAgreement st { a with availableFunds := a.availableFunds - amount }) eid
              = some { a with availableFunds := a.availableFunds - amount } :=
            findByPk_save st eid a _ hfind haref
          obtain ⟨st1, a1, hproc, hfind1, hfunds, hlp⟩ :=
            ih (saveAgreement st { a with availableFunds := a.availableFunds - amount }) eid
              { a with availableFunds := a.availableFunds - amount } hupd hrest
          refine ⟨st1, a1, ?_, hfind1, ?_, ?_⟩
          · simp [processFundEvents, handleFundEvent, hfind, hproc]
          · simp at hfunds
            simp [netDelta, FundEvent.delta, hfunds]
            ring
          · simpa [finalLastPayout] using hlp
      | payout bn eid amount =>
          have heid : eid = id := he
          subst heid
          have hupd : findByPk (saveAgreement st
                { a with lastPayout := ctx.getBlockDate bn
                         availableFunds := a.availableFunds - amount }) eid
              = some { a with lastPayout := ctx.getBlockDate bn
                              availableFunds := a.availableFunds - amount } :=
            findByPk_save st eid a _ hfind haref
          obtain ⟨st1, a1, hproc, hfind1, hfunds, hlp⟩ :=
            ih (saveAgreement st
                { a with lastPayout := ctx.getBlockDate bn
                         availableFunds := a.availableFunds - amount }) eid
              { a with lastPayout := ctx.getBlockDate bn
                       availableFunds := a.availableFunds - amount } hupd hrest
          refine ⟨st1, a1, ?_, hfind1, ?_, ?_⟩
          · simp [processFundEvents, handleFundEvent, hfind, hproc]
          · simp at hfunds
            simp [netDelta, FundEvent.delta, hfunds]
            ring
          · simpa [finalLastPayout] using hlp

/-- A concrete stored Agreement used by the witnesses. -/
def wAgreement : Agreement :=
  { agreementReference := "ref1"
    dataReference := "data1"
    consumer := "consumer1"
    offerId := "offer1"
    size := 3
    billingPeriod := 10
    billingPrice := 2
    availableFunds := 0
    lastPayout := 0
    expiredAtBlockNumber := none
    isActive := true }

/-- The concrete example of the spec: deposit(+100), withdraw(-30), payout(-20)
in that order. -/
def wFundEvents : List FundEvent :=
  [FundEvent.deposited "ref1" 100, FundEvent.withdrawn "ref1" 30,
   FundEvent.payout 5 "ref1" 20]

theorem fundEvents_order_preservation_witness :
    ∃ st1 a1, processFundEvents wCtx wFundEvents [wAgreement] = .ok st1 ∧
      findByPk st1 "ref1" = some a1 ∧
      a1.availableFunds = wAgreement.availableFunds + netDelta wFundEvents ∧
      a1.lastPayout = finalLastPayout wCtx wFundEvents wAgreement.lastPayout :=
  fundEvents_order_preservation wCtx wFundEvents [wAgreement] "ref1" wAgreement
    (by decide) (by decide)

/-- Outcome of the content-store unpin call injected into the stop handler:
the NotPinnedError code is singled out because the handler compares the
error code against it; any other failure is carried with its message. -/
inductive UnpinError where
  | notPinned
  | other (message : String)
deriving Repr, DecidableEq

/-- Effects of one AgreementStopped dispatch: the resulting store, the
unpin requests issued, the notifications broadcast, and whether the handler
resolved or raised. -/
structure StopOut where
  result : Except HandlerError Unit
  store : Store
  unpinCalls : List String
  broadcasts : List Msg
deriving Repr

/-- handlers.AgreementStopped of src/processor/blockchain-events/agreement.ts:
locate the Agreement by id (EventError if absent), mark it inactive and
save it, then, when a provider manager is configured, unpin its data
reference swallowing a NotPinnedError outcome and re-raising any other
unpin error, and finally broadcast an agreement-stopped notification. -/
def handleAgreementStopped (manager : Option (String → Except UnpinError Unit))
    (id : String) (st : Store) : StopOut :=
  match findByPk st id with
  | none => ⟨.error (.eventNotFound id "AgreementStopped"), st, [], []⟩
  | some agreement =>
      let st1 := saveAgreement st { agreement with isActive := false }
      match manager with
      | none => ⟨.ok (), st1, [], []⟩
      | some unpin =>
          match unpin agreement.dataReference with
          | .ok _ =>
              ⟨.ok (), st1, [agreement.dataReference],
                [Msg.agreementStopped agreement.agreementReference]⟩
          | .error .notPinned =>
              ⟨.ok (), st1, [agreement.dataReference],
                [Msg.agreementStopped agreement.agreementReference]⟩
          | .error (.other m) =>
              ⟨.error (.unpinFailed m), st1, [agreement.dataReference], []⟩

/-- C5: Stop semantics.  With a manager configured, processing
AgreementStopped for a stored Agreement persists isActive=false and issues
exactly one unpin for its data reference; a NotPinnedError outcome of that
unpin is swallowed (the handler resolves and broadcasts agreement-stopped,
exactly as on success), any other unpin error is re-raised; and for an id
with no stored Agreement the handler fails with the not-found EventError. -/
theorem agreementStopped_stop_semantics
    (unpin : String → Except UnpinError Unit) (id : String) (st : Store) :
    (findByPk st id = none →
      (handleAgreementStopped (some unpin) id st).result
        = .error (.eventNotFound id "AgreementStopped")) ∧
    (∀ a, findByPk st id = some a →
      (handleAgreementStopped (some unpin) id st).unpinCalls = [a.dataReference] ∧
      findByPk (handleAgreementStopped (some unpin) id st).store id
        = some { a with isActive := false } ∧
      ((unpin a.dataReference = .ok () ∨ unpin a.dataReference = .error .notPinned) →
        (handleAgreementStopped (some unpin) id st).result = .ok () ∧
        (handleAgreementStopped (some unpin) id st).broadcasts
          = [Msg.agreementStopped a.agreementReference]) ∧
      (∀ m, unpin a.dataReference = .error (.other m) →
        (handleAgreementStopped (some unpin) id st).result = .error (.unpinFailed m) ∧
        (handleAgreementStopped (some unpin) id st).broadcasts = [])) := by
  constructor
  · intro hnone
    simp [handleAgreementStopped, hnone]
  · intro a hfind
    have haref : a.agreementReference = id := findByPk_eq_ref st id a hfind
    have hsave : findByPk (saveAgreement st { a with isActive := false }) id
        = some { a with isActive := false } :=
      findByPk_save st id a { a with isActive := false } hfind haref
    refine ⟨?_, ?_, ?_, ?_⟩
    · cases hu : unpin a.dataReference with
      | ok u => simp [handleAgreementStopped, hfind, hu]
      | error e => cases e <;> simp [handleAgreementStopped, hfind, hu]
    · cases hu : unpin a.dataReference with
      | ok u => simpa [handleAgreementStopped, hfind, hu] using hsave
      | error e => cases e <;> simpa [handleAgreementStopped, hfind, hu] using hsave
    · rintro (hu | hu) <;> simp [handleAgreementStopped, hfind, hu]
    · intro m hu
      simp [handleAgreementStopped, hfind, hu]

theorem agreementStopped_stop_semantics_witness :
    (handleAgreementStopped (some (fun _ => Except.error UnpinError.notPinned))
        "ref1" [wAgreement]).result = .ok () ∧
    (handleAgreementStopped (some (fun _ => Except.error UnpinError.notPinned))
        "ref1" [wAgreement]).unpinCalls = [wAgreement.dataReference] ∧
    (handleAgreementStopped (some (fun _ => Except.error UnpinError.notPinned))
        "ref1" [wAgreement]).broadcasts
      = [Msg.agreementStopped wAgreement.agreementReference] := by
  have h := (agreementStopped_stop_semantics
      (fun _ => Except.error UnpinError.notPinned) "ref1" [wAgreement]).2
      wAgreement (by decide)
  exact ⟨(h.2.2.1 (Or.inr rfl)).1, h.1, (h.2.2.1 (Or.inr rfl)).2⟩

/-- C10: In the AgreementStopped handler the deactivation is persisted
before the unpin is attempted, so when the unpin fails with an error other
than NotPinnedError the handler raises that error, the Agreement stays
deactivated in the store, and no agreement-stopped broadcast is sent. -/
theorem agreementStopped_persist_before_unpin
    (unpin : String → Except UnpinError Unit) (id : String) (st : Store)
    (a : Agreement) (m : String)
    (hfind : findByPk st id = some a)
    (hunpin : unpin a.dataReference = .error (.other m)) :
    (handleAgreementStopped (some unpin) id st).result = .error (.unpinFailed m) ∧
    findByPk (handleAgreementStopped (some unpin) id st).store id
      = some { a with isActive := false } ∧
    (handleAgreementStopped (some unpin) id st).broadcasts = [] := by
  have haref : a.agreementReference = id := findByPk_eq_ref st id a hfind
  have hsave : findByPk (saveAgreement st { a with isActive := false }) id
      = some { a with isActive := false } :=
    findByPk_save st id a { a with isActive := false } hfind haref
  refine ⟨?_, ?_, ?_⟩
  · simp [handleAgreementStopped, hfind, hunpin]
  · simpa [handleAgreementStopped, hfind, hunpin] using hsave
  · simp [handleAgreementStopped, hfind, hunpin]

theorem agreementStopped_persist_before_unpin_witness :
    (handleAgreementStopped (some (fun _ => Except.error (UnpinError.other "boom")))
        "ref1" [wAgreement]).result = .error (.unpinFailed "boom") ∧
    findByPk (handleAgreementStopped (some (fun _ => Except.error (UnpinError.other "boom")))
        "ref1" [wAgreement]).store "ref1"
      = some { wAgreement with isActive := false } ∧
    (handleAgreementStopped (some (fun _ => Except.error (UnpinError.other "boom")))
        "ref1" [wAgreement]).broadcasts = [] :=
  agreementStopped_persist_before_unpin
    (fun _ => Except.error (UnpinError.other "boom")) "ref1" [wAgreement]
    wAgreement "boom" (by decide) rfl

/-- A raw blockchain event as seen by the dispatch plumbing: its event-name
string and the two returnValues fields the filter reads, each optional
because not every event type carries them. -/
structure BCEvent where
  event : String
  provider : Option String
  agreementReference : Option String
deriving Repr, DecidableEq

/-- Log line produced when the error boundary catches a handler error. -/
def logOf : HandlerError → String
  | .eventNotFound id eventName =>
      "Agreement with ID " ++ id ++ " was not found. During: " ++ eventName
  | .unpinFailed m => m
  | .unknownEvent eventName => "Unknown event " ++ eventName

/-- errorHandler of src/utils.ts: run the wrapped computation and catch any
rejection, turning it into a log entry; the wrapped computation itself
always resolves. -/
def errorHandler (fn : BCEvent → Except HandlerError Unit) :
    BCEvent → Except HandlerError Unit × List String :=
  fun ev =>
    match fn ev with
    | .ok _ => (.ok (), [])
    | .error e => (.ok (), [logOf e])

/-- One entry of the handlers list consumed by getProcessor: the event
names it accepts and its per-event processing function. -/
structure EventsHandler where
  events : List String
  process : BCEvent → Except HandlerError Unit

/-- buildHandler of src/utils.ts: wrap a handlers object (here a
mapping from event names that may miss some) into an EventsHandler that rejects with the generic
Unknown-event error when the name has no registered handler. -/
def buildHandler (handlersMap : String → Option (BCEvent → Except HandlerError Unit))
    (events : List String) : EventsHandler :=
  { events := events
    process := fun ev =>
      match handlersMap ev.event with
      | none => .error (.unknownEvent ev.event)
      | some h => h ev }

/-- The inner processor built by getProcessor of src/utils.ts before the
error boundary is applied: run every handler whose accepted event names
include the name of the event, propagating the first rejection. -/
def processorBody (handlers : List EventsHandler) (ev : BCEvent) : Except HandlerError Unit :=
  (handlers.filter (fun h => h.events.contains ev.event)).foldlM
    (fun _ h => h.process ev) ()

/-- getProcessor of src/utils.ts on its default error handler: the inner
processor wrapped in the error boundary. -/
def getProcessor (handlers : List EventsHandler) :
    BCEvent → Except HandlerError Unit × List String :=
  errorHandler (processorBody handlers)

/-- C6: Error boundary.  The wrapped processor produced by getProcessor
never rejects: whatever error the inner handler pipeline raises is caught
and logged, in particular the generic Unknown-event rejection that
buildHandler produces for an event name with no registered handler, so a
bad event never halts the feed. -/
theorem processor_error_boundary (handlers : List EventsHandler) :
    (∀ ev, (getProcessor handlers ev).1 = .ok ()) ∧
    (∀ ev e, processorBody handlers ev = .error e →
      getProcessor handlers ev = (.ok (), [logOf e])) ∧
    (∀ (hm : String → Option (BCEvent → Except HandlerError Unit))
        (evs : List String) (ev : BCEvent), hm ev.event = none →
      (buildHandler hm evs).process ev = .error (.unknownEvent ev.event)) := by
  refine ⟨?_, ?_, ?_⟩
  · intro ev
    unfold getProcessor errorHandler
    cases processorBody handlers ev <;> simp
  · intro ev e he
    unfold getProcessor errorHandler
    rw [he]
  · intro hm evs ev hnone
    simp [buildHandler, hnone]

theorem processor_error_boundary_witness :
    (getProcessor [] { event := "Whatever", provider := none, agreementReference := none }).1
      = .ok () :=
  (processor_error_boundary []).1
    { event := "Whatever", provider := none, agreementReference := none }

/-- isEventWithProvider of src/utils.ts: the JS truthiness test of
returnValues.provider, false for an absent field and for the empty
string. -/
def isEventWithProvider (e : BCEvent) : Bool :=
  match e.provider with
  | some s => if s = "" then false else true
  | none => false

/-- findByPk applied to an optional primary key: an absent key finds
nothing, as a lookup on an undefined id does. -/
def findByPkOpt (st : Store) : Option String → Option Agreement
  | none => none
  | some id => findByPk st id

/-- filterBlockchainEvents of src/processor/blockchain-events/index
section of agreement.ts: dispatch when the event names this offer as the
relevant provider, or when it is an Agreement-scoped event whose agreement
id is already stored; drop it otherwise. -/
def filterBlockchainEvents (offerId : String) (st : Store) (e : BCEvent) : Bool :=
  if isEventWithProvider e = true ∧ e.provider = some offerId then true
  else if e.event.startsWith "Agreement" = true
      ∧ (findByPkOpt st e.agreementReference).isSome = true then true
  else false

/-- The filtered processor: the callback runs only when the filter lets the
event through; a dropped event leaves the store untouched. -/
def filterApply (offerId : String) (callback : BCEvent → Store → Store)
    (e : BCEvent) (st : Store) : Store :=
  if filterBlockchainEvents offerId st e then callback e st else st

/-- C7: Event relevance filter.  For a nonempty offer id, an event is
dispatched iff it names this offer as the relevant provider or it is an
Agreement-scoped event whose agreement id is already stored; a dropped
event causes no state mutation. -/
theorem filterBlockchainEvents_relevance (offerId : String) (st : Store)
    (e : BCEvent) (hoffer : offerId ≠ "") :
    (filterBlockchainEvents offerId st e = true ↔
      e.provider = some offerId ∨
      (e.event.startsWith "Agreement" = true ∧
        ∃ id a, e.agreementReference = some id ∧ findByPk st id = some a)) ∧
    (filterBlockchainEvents offerId st e = false →
      ∀ callback, filterApply offerId callback e st = st) := by
  have hprov : e.provider = some offerId → isEventWithProvider e = true := by
    intro h
    simp [isEventWithProvider, h, hoffer]
  have hagr : (findByPkOpt st e.agreementReference).isSome = true ↔
      ∃ id a, e.agreementReference = some id ∧ findByPk st id = some a := by
    cases har : e.agreementReference with
    | none => simp [findByPkOpt]
    | some id =>
        simp only [findByPkOpt, Option.isSome_iff_exists]
        constructor
        · rintro ⟨a, ha⟩
          exact ⟨id, a, rfl, ha⟩
        · rintro ⟨id1, a, hid, ha⟩
          cases hid
          exact ⟨a, ha⟩
  constructor
  · unfold filterBlockchainEvents
    split
    · rename_i hcond
      simp only [true_iff]
      exact Or.inl hcond.2
    · split
      · rename_i hcond2
        simp only [true_iff]
        exact Or.inr ⟨hcond2.1, hagr.mp hcond2.2⟩
      · rename_i hnot1 hnot2
        simp only [Bool.false_eq_true, false_iff]
        rintro (hp | ⟨hs, hex⟩)
        · exact hnot1 ⟨hprov hp, hp⟩
        · exact hnot2 ⟨hs, hagr.mpr hex⟩
  · intro hfalse callback
    unfold filterApply
    rw [hfalse]
    simp

theorem filterBlockchainEvents_relevance_witness :
    (filterBlockchainEvents "offer1" []
        { event := "NewAgreement", provider := some "offer2", agreementReference := none }
      = true ↔
      ({ event := "NewAgreement", provider := some "offer2",
         agreementReference := none } : BCEvent).provider = some "offer1" ∨
      (String.startsWith "NewAgreement" "Agreement" = true ∧
        ∃ id a, (none : Option String) = some id ∧ findByPk [] id = some a)) ∧
    (filterBlockchainEvents "offer1" []
        { event := "NewAgreement", provider := some "offer2", agreementReference := none }
      = false →
      ∀ callback, filterApply "offer1" callback
        { event := "NewAgreement", provider := some "offer2", agreementReference := none }
        [] = []) :=
  filterBlockchainEvents_relevance "offer1" []
    { event := "NewAgreement", provider := some "offer2", agreementReference := none }
    (by decide)

/-- JS truthiness of the stored lastFetchedBlockNumber checkpoint: absent
and zero are falsy. -/
def jsTruthyNat : Option Nat → Bool
  | none => false
  | some n => if n = 0 then false else true

/-- The precache trigger condition of BlockchainEventsProcessor.run in
src/processor/blockchain-events/agreement.ts, transcribed from the source:
precache runs when the checkpoint is unset AND the forcePrecache option is
NOT set. -/
def runShouldPrecache (lastFetchedBlockNumber : Option Nat) (forcePrecache : Bool) : Bool :=
  !(jsTruthyNat lastFetchedBlockNumber) && !forcePrecache

/-- Modelled from the spec: the intended precache trigger, performed if no
checkpoint of prior progress exists OR the forced-refresh flag
(forcePrecache) is set. -/
def specShouldPrecache (lastFetchedBlockNumber : Option Nat) (forcePrecache : Bool) : Bool :=
  !(jsTruthyNat lastFetchedBlockNumber) || forcePrecache

/-- C8: Precache trigger condition.  The source condition diverges from the
claim: with no checkpoint and forcePrecache set, the code skips precache
while the claim (and the name of the flag) requires it; the two conditions agree
only when the flag is unset. -/
theorem precache_trigger_code_divergence :
    runShouldPrecache none true = false ∧
    specShouldPrecache none true = true ∧
    runShouldPrecache none false = true ∧
    specShouldPrecache none false = true ∧
    runShouldPrecache (some 5) true = false := by decide

/-- One emission of the chain event source during startup: a live event or
the one-shot completion signal of backlog ingestion. -/
inductive Emission where
  | newEvent (e : BCEvent)
  | initFinished
deriving Repr

/-- State of the precache handoff protocol of
BlockchainEventsProcessor.precache: whether the queue-pusher is still
subscribed, the in-memory FIFO dataQueue, the dispatch log in dispatch
order, and the store the processor mutates. -/
structure PrecacheState where
  subscribed : Bool
  dataQueue : List BCEvent
  processed : List BCEvent
  store : Store

/-- One step of the precache protocol: while subscribed, a live event is
appended to the FIFO queue; the initFinished signal unsubscribes the
pusher and sequentially dispatches every queued event through the
processor, each one completed before the next. -/
def precacheStep (proc : BCEvent → Store → Store)
    (s : PrecacheState) : Emission → PrecacheState
  | .newEvent e =>
      if s.subscribed then { s with dataQueue := s.dataQueue ++ [e] } else s
  | .initFinished =>
      { subscribed := false
        dataQueue := []
        processed := s.processed ++ s.dataQueue
        store := s.dataQueue.foldl (fun st e => proc e st) s.store }

/-- The precache protocol run over a trace of emissions, starting
subscribed with an empty queue. -/
def precacheRun (proc : BCEvent → Store → Store) (trace : List Emission)
    (st0 : Store) : PrecacheState :=
  trace.foldl (precacheStep proc) ⟨true, [], [], st0⟩

theorem precacheRun_queue_phase (proc : BCEvent → Store → Store)
    (es : List BCEvent) :
    ∀ (q p : List BCEvent) (st : Store),
    (es.map Emission.newEvent).foldl (precacheStep proc) ⟨true, q, p, st⟩
      = ⟨true, q ++ es, p, st⟩ := by
  induction es with
  | nil => intro q p st; simp
  | cons e rest ih =>
      intro q p st
      simp only [List.map_cons, List.foldl_cons, precacheStep, if_pos]
      rw [ih (q ++ [e]) p st]
      simp

theorem precacheRun_idle_phase (proc : BCEvent → Store → Store)
    (rest : List Emission) :
    ∀ (p : List BCEvent) (st : Store),
    rest.foldl (precacheStep proc) ⟨false, [], p, st⟩ = ⟨false, [], p, st⟩ := by
  induction rest with
  | nil => intro p st; rfl
  | cons em tail ih =>
      intro p st
      cases em with
      | newEvent e =>
          simp only [List.foldl_cons, precacheStep]
          rw [if_neg (by simp)]
          exact ih p st
      | initFinished =>
          simp only [List.foldl_cons, precacheStep, List.append_nil, List.foldl_nil]
          exact ih p st

/-- C9: Precache handoff.  Every event delivered on the live channel
strictly during backlog ingestion is queued and, once initFinished fires,
dispatched through the processor exactly once, in original arrival order,
sequentially; whatever follows on the trace, none of these events is lost
or double-processed. -/
theorem precache_handoff_exactly_once (proc : BCEvent → Store → Store)
    (es : List BCEvent) (rest : List Emission) (st0 : Store) :
    (precacheRun proc (es.map Emission.newEvent ++ Emission.initFinished :: rest) st0).processed
      = es ∧
    (precacheRun proc (es.map Emission.newEvent ++ Emission.initFinished :: rest) st0).store
      = es.foldl (fun st e => proc e st) st0 := by
  unfold precacheRun
  rw [List.foldl_append, precacheRun_queue_phase proc es [] [] st0]
  simp only [List.foldl_cons, precacheStep, List.nil_append]
  rw [precacheRun_idle_phase proc rest es (es.foldl (fun st e => proc e st) st0)]
  exact ⟨rfl, rfl⟩

/-- Persisted Job states of the state machine of definitions.ts. -/
inductive JobState where
  | CREATED
  | RUNNING
  | BACKOFF
  | FINISHED
  | ERRORED
deriving Repr, DecidableEq

/-- Errors a Job body can raise, split along the retry policy of the Job
Manager: transient failures are recoverable, HashExceedsSizeError (the
size-limit error of src/errors.ts raised by the pin job) is
non-recoverable. -/
inductive JobError where
  | transient (message : String)
  | hashExceedsSize (message : String)
deriving Repr, DecidableEq

def JobError.nonRecoverable : JobError → Bool
  | .hashExceedsSize _ => true
  | .transient _ => false

def JobError.message : JobError → String
  | .transient m => m
  | .hashExceedsSize m => m

/-- Lifecycle notifications the Job Manager broadcasts. -/
inductive JobMsg where
  | start
  | retryWarn (attempt : Nat) (total : Nat) (error : String)
  | completed
  | failedGeneral (error : String)
  | failedSizeLimit (error : String)
deriving Repr, DecidableEq

/-- Observable outcome of one JobsManager.run call: the value the returned
promise settles with, the persisted final Job state, the number of body
invocations, the persisted retry column (attempt, ceiling), and the
broadcasts in emission order. -/
structure RunResult where
  result : Except JobError Unit
  finalState : JobState
  invocations : Nat
  retryField : Option (Nat × Nat)
  broadcasts : List JobMsg
deriving Repr

/-- Modelled from the spec: the attempt loop of JobsManager.run
(src/jobs-manager.ts is not among the provided sources; this follows
section 4.2 of the spec and the observable behaviour fixed by
test/unit/jobs.spec.ts).  The pending attempt indices are carried as a
list; on each attempt the manager broadcasts a start notification and
invokes the body.  Success persists FINISHED and broadcasts completed.  A
non-recoverable failure stops immediately: ERRORED plus the
size-limit-specific notification.  A recoverable failure with attempts
remaining persists BACKOFF via retry(attempt, ceiling) and broadcasts a
retry warning; with no attempt remaining it persists ERRORED and
broadcasts the general failure notification. -/
def runLoop (body : Nat → Except JobError Unit) (total : Nat) :
    List Nat → Option (Nat × Nat) → List JobMsg → Nat → RunResult
  | [], retryF, msgs, inv =>
      ⟨.error (.transient "no attempts scheduled"), .ERRORED, inv, retryF, msgs⟩
  | idx :: restAttempts, retryF, msgs, inv =>
      let msgs1 := msgs ++ [JobMsg.start]
      match body idx with
      | .ok _ =>
          ⟨.ok (), .FINISHED, inv + 1, retryF, msgs1 ++ [JobMsg.completed]⟩
      | .error e =>
          if e.nonRecoverable then
            ⟨.error e, .ERRORED, inv + 1, retryF,
              msgs1 ++ [JobMsg.failedSizeLimit e.message]⟩
          else
            match restAttempts with
            | [] =>
                ⟨.error e, .ERRORED, inv + 1, retryF,
                  msgs1 ++ [JobMsg.failedGeneral e.message]⟩
            | next :: tail =>
                runLoop body total (next :: tail) (some (idx + 1, total))
                  (msgs1 ++ [JobMsg.retryWarn (idx + 1) total e.message]) (inv + 1)

/-- Modelled from the spec: JobsManager.run with a retry ceiling, executing
at most that many attempts of the Job body. -/
def JobsManager.run (retries : Nat) (body : Nat → Except JobError Unit) : RunResult :=
  runLoop body retries (List.range retries) none [] 0

/-- Size check of PinJob.method _run in src/providers/ipfs.ts: with both
sizes already expressed in megabytes (the byte-to-megabyte conversion is
applied to the fetched cumulative size before the comparison), a fetched
cumulative size above the size the consumer paid for raises
HashExceedsSizeError. -/
def sizeCheckOfPinJob (cumulativeSize expectedSize : Int) : Except JobError Unit :=
  if expectedSize < cumulativeSize
  then .error (.hashExceedsSize "The hash exceeds payed size")
  else .ok ()

theorem runLoop_cons_ok (body : Nat → Except JobError Unit) (total idx : Nat)
    (restAttempts : List Nat) (retryF : Option (Nat × Nat)) (msgs : List JobMsg)
    (inv : Nat) (h : body idx = .ok ()) :
    runLoop body total (idx :: restAttempts) retryF msgs inv
      = ⟨.ok (), .FINISHED, inv + 1, retryF,
          (msgs ++ [JobMsg.start]) ++ [JobMsg.completed]⟩ := by
  simp only [runLoop, h]

theorem runLoop_cons_retry (body : Nat → Except JobError Unit) (total idx next : Nat)
    (tail : List Nat) (retryF : Option (Nat × Nat)) (msgs : List JobMsg)
    (inv : Nat) (e : JobError)
    (h : body idx = .error e) (hrec : e.nonRecoverable = false) :
    runLoop body total (idx :: next :: tail) retryF msgs inv
      = runLoop body total (next :: tail) (some (idx + 1, total))
          ((msgs ++ [JobMsg.start]) ++ [JobMsg.retryWarn (idx + 1) total e.message])
          (inv + 1) := by
  rw [runLoop.eq_def]
  simp only [h, hrec, Bool.false_eq_true, if_false]

theorem runLoop_cons_fatal (body : Nat → Except JobError Unit) (total idx : Nat)
    (restAttempts : List Nat) (retryF : Option (Nat × Nat)) (msgs : List JobMsg)
    (inv : Nat) (e : JobError)
    (h : body idx = .error e) (hrec : e.nonRecoverable = true) :
    runLoop body total (idx :: restAttempts) retryF msgs inv
      = ⟨.error e, .ERRORED, inv + 1, retryF,
          (msgs ++ [JobMsg.start]) ++ [JobMsg.failedSizeLimit e.message]⟩ := by
  rw [runLoop.eq_def]
  simp only [h, hrec, if_true]

theorem runLoop_cons_exhausted (body : Nat → Except JobError Unit) (total idx : Nat)
    (retryF : Option (Nat × Nat)) (msgs : List JobMsg) (inv : Nat) (e : JobError)
    (h : body idx = .error e) (hrec : e.nonRecoverable = false) :
    runLoop body total [idx] retryF msgs inv
      = ⟨.error e, .ERRORED, inv + 1, retryF,
          (msgs ++ [JobMsg.start]) ++ [JobMsg.failedGeneral e.message]⟩ := by
  rw [runLoop.eq_def]
  simp only [h, hrec, Bool.false_eq_true, if_false]

/-- C3: Retry ceiling.  A Job body that fails recoverably on its first two
invocations and succeeds on the third, run by a manager configured with 3
retries, resolves successfully, ends FINISHED, and is invoked exactly 3
times. -/
theorem jobsManager_retry_ceiling (body : Nat → Except JobError Unit)
    (e0 e1 : JobError)
    (h0 : body 0 = .error e0) (hr0 : e0.nonRecoverable = false)
    (h1 : body 1 = .error e1) (hr1 : e1.nonRecoverable = false)
    (h2 : body 2 = .ok ()) :
    (JobsManager.run 3 body).result = .ok () ∧
    (JobsManager.run 3 body).finalState = .FINISHED ∧
    (JobsManager.run 3 body).invocations = 3 := by
  have hrange : List.range 3 = [0, 1, 2] := rfl
  unfold JobsManager.run
  rw [hrange]
  rw [show ([0, 1, 2] : List Nat) = 0 :: 1 :: [2] from rfl,
    runLoop_cons_retry body 3 0 1 [2] none [] 0 e0 h0 hr0,
    runLoop_cons_retry body 3 1 2 [] (some (0 + 1, 3)) _ 1 e1 h1 hr1,
    runLoop_cons_ok body 3 2 [] (some (1 + 1, 3)) _ 2 h2]
  exact ⟨rfl, rfl, rfl⟩

theorem jobsManager_retry_ceiling_witness :
    (JobsManager.run 3 (fun n => if n < 2 then .error (.transient "testing") else .ok ())).result
      = .ok () ∧
    (JobsManager.run 3 (fun n => if n < 2 then .error (.transient "testing") else .ok ())).finalState
      = .FINISHED ∧
    (JobsManager.run 3 (fun n => if n < 2 then .error (.transient "testing") else .ok ())).invocations
      = 3 :=
  jobsManager_retry_ceiling
    (fun n => if n < 2 then .error (.transient "testing") else .ok ())
    (.transient "testing") (.transient "testing")
    rfl rfl rfl rfl rfl

/-- C4: Non-recoverable short-circuit.  A Job body whose first invocation
fails recoverably and whose second raises the size-limit error of the pin
job (the fetched cumulative size exceeds the paid size) makes
JobsManager.run stop regardless of the remaining budget: for every
configured ceiling of at least 2, the run rejects with that error after
exactly 2 invocations, ends ERRORED, and the broadcasts end with the
size-limit-specific failure notification right after the second start. -/
theorem jobsManager_nonrecoverable_short_circuit (n : Nat)
    (body : Nat → Except JobError Unit) (e0 : JobError) (m0 : String)
    (cumulativeSize expectedSize : Int)
    (h0 : body 0 = .error e0) (hr0 : e0.nonRecoverable = false) (hm0 : e0.message = m0)
    (h1 : body 1 = sizeCheckOfPinJob cumulativeSize expectedSize)
    (hsize : expectedSize < cumulativeSize) :
    (JobsManager.run (n + 2) body).result
      = .error (.hashExceedsSize "The hash exceeds payed size") ∧
    (JobsManager.run (n + 2) body).finalState = .ERRORED ∧
    (JobsManager.run (n + 2) body).invocations = 2 ∧
    (JobsManager.run (n + 2) body).broadcasts
      = [JobMsg.start, JobMsg.retryWarn 1 (n + 2) m0, JobMsg.start,
         JobMsg.failedSizeLimit "The hash exceeds payed size"] := by
  have h1e : body 1 = .error (.hashExceedsSize "The hash exceeds payed size") := by
    rw [h1]
    simp [sizeCheckOfPinJob, hsize]
  have hrange : List.range (n + 2)
      = 0 :: 1 :: ((List.range n).map Nat.succ).map Nat.succ := by
    rw [List.range_succ_eq_map, List.range_succ_eq_map]
    simp
  unfold JobsManager.run
  rw [hrange]
  rw [runLoop_cons_retry body (n + 2) 0 1 (((List.range n).map Nat.succ).map Nat.succ)
      none [] 0 e0 h0 hr0,
    runLoop_cons_fatal body (n + 2) 1 (((List.range n).map Nat.succ).map Nat.succ)
      (some (0 + 1, n + 2)) _ 1 (.hashExceedsSize "The hash exceeds payed size") h1e rfl]
  refine ⟨rfl, rfl, rfl, ?_⟩
  simp only [hm0, List.nil_append, List.cons_append, List.append_assoc]
  rfl

theorem jobsManager_nonrecoverable_short_circuit_witness :
    (JobsManager.run 3 (fun k =>
        if k = 0 then .error (.transient "testing1") else sizeCheckOfPinJob 10 9)).result
      = .error (.hashExceedsSize "The hash exceeds payed size") ∧
    (JobsManager.run 3 (fun k =>
        if k = 0 then .error (.transient "testing1") else sizeCheckOfPinJob 10 9)).finalState
      = .ERRORED ∧
    (JobsManager.run 3 (fun k =>
        if k = 0 then .error (.transient "testing1") else sizeCheckOfPinJob 10 9)).invocations
      = 2 ∧
    (JobsManager.run 3 (fun k =>
        if k = 0 then .error (.transient "testing1") else sizeCheckOfPinJob 10 9)).broadcasts
      = [JobMsg.start, JobMsg.retryWarn 1 3 "testing1", JobMsg.start,
         JobMsg.failedSizeLimit "The hash exceeds payed size"] :=
  jobsManager_nonrecoverable_short_circuit 1
    (fun k => if k = 0 then .error (.transient "testing1") else sizeCheckOfPinJob 10 9)
    (.transient "testing1") "testing1" 10 9 rfl rfl rfl rfl (by decide)

end Pinner
